import Mathlib

/-!
Verification of the two-tier resource storage layer of
`mindsdb/interfaces/storage/fs.py`.

The filesystem is shallowly embedded as a flat association list from
absolute paths (lists of components) to entries (regular files with byte
contents, or directories).  Byte strings are `List Nat`.  The tar/gzip
codec is treated, as the specification does, as an opaque capability:
a remote archive object is represented by its list of entries
(relative path, entry); hashing (md5, checksumdir dirhash) is modelled
as the hashed content itself, i.e. hashes are assumed collision free.
Timestamps are natural numbers; the textual marker format
(strftime/strptime round trip) is modelled by the singleton byte
encoding `encLm`.
-/

/-- A path, as a list of components from the filesystem root. -/
abbrev FPath := List String

/-- A filesystem entry: a regular file with its contents, or a directory. -/
inductive FsEntry where
  | file (content : List Nat) : FsEntry
  | dir : FsEntry
deriving DecidableEq

/-- A filesystem: a flat list of (absolute path, entry) pairs. -/
abbrev Fs := List (FPath × FsEntry)

/-- A tar archive: entries keyed by path relative to the archive root. -/
abbrev Tar := List (FPath × FsEntry)

/-- Errors, mirroring the Python exceptions raised by fs.py. -/
inductive Err where
  | fileNotFound   -- FileNotFoundError
  | notFound       -- botocore client error for a missing S3 key
  | typeError      -- TypeError (absolute path passed, dirhash of a non-directory)
  | valueError     -- ValueError (strptime on malformed marker text)
  | isADirectory   -- IsADirectoryError
  | pathNotExists  -- Exception("Path does not exists")
  | dirNotEmpty    -- OSError from Path.rmdir on a non-empty directory
deriving DecidableEq

/-- `stripPre p q = some r` iff `q = p ++ r`; used for prefix tests and
for extracting subtrees. -/
def stripPre : FPath → FPath → Option FPath
  | [], q => some q
  | _ :: _, [] => none
  | a :: p, b :: q => if a = b then stripPre p q else none

/-- First entry stored at exactly path `p` (files and directories). -/
def lookupP : List (FPath × FsEntry) → FPath → Option FsEntry
  | [], _ => none
  | e :: t, p => if e.1 = p then some e.2 else lookupP t p

/-- `os.path.exists`. -/
def existsP (l : Fs) (p : FPath) : Bool := (lookupP l p).isSome

/-- `Path.is_file` / `os.path.isfile`. -/
def isFile (l : Fs) (p : FPath) : Bool :=
  match lookupP l p with
  | some (.file _) => true
  | _ => false

/-- `Path.is_dir` / `os.path.isdir`. -/
def isDir (l : Fs) (p : FPath) : Bool :=
  match lookupP l p with
  | some .dir => true
  | _ => false

/-- Overwrite (or create) the file at `p` with content `c`. -/
def insertFile (l : Fs) (p : FPath) (c : List Nat) : Fs :=
  l.filter (fun e => e.1 ≠ p) ++ [(p, FsEntry.file c)]

/-- Remove the entry at exactly `p` (`os.remove` / `Path.unlink` / `Path.rmdir`). -/
def removeEntry (l : Fs) (p : FPath) : Fs :=
  l.filter (fun e => e.1 ≠ p)

/-- Remove `p` and everything below it (`shutil.rmtree`). -/
def removeAll (l : Fs) (p : FPath) : Fs :=
  l.filter (fun e => stripPre p e.1 = none)

/-- The subtree rooted at `p`: entries with their paths made relative to `p`
(including `p` itself at relative path `[]`). -/
def subtree (l : Fs) (p : FPath) : List (FPath × FsEntry) :=
  l.filterMap (fun e => (stripPre p e.1).map (fun r => (r, e.2)))

/-- Add a directory entry at `q` when nothing exists there yet. -/
def addDirIfMissing (l : Fs) (q : FPath) : Fs :=
  if q.isEmpty then l
  else if (lookupP l q).isSome then l
  else l ++ [(q, FsEntry.dir)]

/-- Create directories for every path in the list, skipping existing ones. -/
def addDirsList : Fs → List FPath → Fs
  | l, [] => l
  | l, q :: t => addDirsList (addDirIfMissing l q) t

/-- The non-empty prefixes of `p`, shortest first. -/
def prefixesOf (p : FPath) : List FPath :=
  (List.range p.length).map (fun i => p.take (i + 1))

/-- `os.makedirs(p, exist_ok=True)` / `Path.mkdir(parents=True, exist_ok=True)`. -/
def mkdirp (l : Fs) (p : FPath) : Fs :=
  addDirsList l (prefixesOf p)

/-- Whether the parent directory of `p` exists (the root `[]` always does). -/
def parentIsDir (l : Fs) (p : FPath) : Bool :=
  p.dropLast.isEmpty || isDir l p.dropLast

/-- `open(p, "wb").write(c)`: fails when `p` is a directory or its parent
directory is missing. -/
def writeFile (l : Fs) (p : FPath) (c : List Nat) : Except Err Fs :=
  if isDir l p then .error .isADirectory
  else if p.isEmpty then .error .isADirectory
  else if parentIsDir l p then .ok (insertFile l p c)
  else .error .fileNotFound

/-- A write whose failure is swallowed (`try: ... except Exception: pass`). -/
def writeQuiet (l : Fs) (p : FPath) (c : List Nat) : Fs :=
  match writeFile l p c with
  | .ok l' => l'
  | .error _ => l

/-- `open(p, "rb").read()`. -/
def readFile (l : Fs) (p : FPath) : Except Err (List Nat) :=
  match lookupP l p with
  | some (.file c) => .ok c
  | some .dir => .error .isADirectory
  | none => .error .fileNotFound

/-- Names of the direct children of directory `p` (`Path.iterdir`),
in storage order. -/
def childNames (l : Fs) (p : FPath) : List String :=
  l.filterMap (fun e =>
    match stripPre p e.1 with
    | some [n] => some n
    | _ => none)

/-- Total size in bytes of the regular files below `p`
(`sum(f.stat().st_size for f in dir_path.glob("**/*") if f.is_file())`). -/
def sizeOfDir (l : Fs) (p : FPath) : Nat :=
  (subtree l p).foldl
    (fun n e => match e.2 with | .file c => n + c.length | .dir => n) 0

/-- One step of POSIX path normalisation over a reversed accumulator. -/
def normStep (acc : List String) (c : String) : List String :=
  if c = "." then acc
  else if c = ".." then acc.drop 1
  else c :: acc

/-- Resolve `.` and `..` components (`Path.resolve`, and what the kernel
does when `exists`/`makedirs`/`unlink` are handed a path containing dots). -/
def resolveDots (p : FPath) : FPath :=
  (p.foldl normStep []).reverse

/-- `s.split("/")`, over the character list of `s`. -/
def splitSlashAux : List Char → List Char → List String
  | [], acc => [String.mk acc.reverse]
  | c :: rest, acc =>
      if c = '/' then String.mk acc.reverse :: splitSlashAux rest []
      else splitSlashAux rest (c :: acc)

/-- Components of a Python path given as a string (`Path(name)` /
`os.path.join` results may contain slashes). -/
def pathOfName (s : String) : FPath := splitSlashAux s.data []

/-- Left-to-right, non-overlapping removal of the character sequence
`tar.gz`, as performed by `str.replace("tar.gz", "")` in
`S3FSStore._download` (note: the pattern lacks the leading dot). -/
def replTarGz : List Char → List Char
  | 't' :: 'a' :: 'r' :: '.' :: 'g' :: 'z' :: rest => replTarGz rest
  | c :: rest => c :: replTarGz rest
  | [] => []

/-- `s.replace("tar.gz", "")`. -/
def pyStripTarGz (s : String) : String := String.mk (replTarGz s.data)

example : pathOfName "predictor_1_1" = ["predictor_1_1"] := by decide
example : pathOfName "a/b.tar.gz" = ["a", "b.tar.gz"] := by decide
example : pyStripTarGz "predictor_1_1.tar.gz" = "predictor_1_1." := by decide
example : resolveDots ["c", "p", "f", "..", "x"] = ["c", "p", "x"] := by decide

/-!
World state: the local filesystem, the S3 bucket (objects and their
server-assigned last-modified attributes), a server clock used to assign
last-modified values on upload, and a counter of download calls.
-/

/-- Association lookup for string-keyed remote state. -/
def lookupS {α : Type} : List (String × α) → String → Option α
  | [], _ => none
  | e :: t, k => if e.1 = k then some e.2 else lookupS t k

/-- Set a key (overwriting any previous binding). -/
def setS {α : Type} (l : List (String × α)) (k : String) (v : α) :
    List (String × α) :=
  l.filter (fun e => e.1 ≠ k) ++ [(k, v)]

/-- Remove a key (`delete_object` semantics: succeeds on a missing key). -/
def removeS {α : Type} (l : List (String × α)) (k : String) :
    List (String × α) :=
  l.filter (fun e => e.1 ≠ k)

/-- The whole world: local filesystem plus remote object store. -/
structure World where
  lfs : Fs
  objects : List (String × Tar)
  lms : List (String × Nat)
  clock : Nat
  downloads : Nat
deriving DecidableEq

/-- Marker text for timestamp `t` (`datetime.strftime(dt_format)`). -/
def encLm (t : Nat) : List Nat := [t]

/-- `datetime.strptime(text, dt_format)`; fails on malformed text. -/
def decLm : List Nat → Option Nat
  | [t] => some t
  | _ => none

/-- `S3FSStore._get_local_last_modified` (fs.py 213-228): `None` when the
marker file is absent, the parsed timestamp otherwise. -/
def getLocalLm (base : FPath) (name : String) (l : Fs) :
    Except Err (Option Nat) :=
  match lookupP l (base ++ pathOfName name ++ ["last_modified.txt"]) with
  | some (.file c) =>
      match decLm c with
      | some t => .ok (some t)
      | none => .error .valueError
  | _ => .ok none

/-- `S3FSStore._save_local_last_modified` (fs.py 231-241). -/
def saveLocalLm (base : FPath) (name : String) (t : Nat) (l : Fs) :
    Except Err Fs :=
  writeFile l (base ++ pathOfName name ++ ["last_modified.txt"]) (encLm t)

/-- The remote last-modified attribute of an object
(`S3FSStore._get_remote_last_modified` succeeds iff the key exists). -/
def remoteLm (w : World) (key : String) : Option Nat := lookupS w.lms key

/-- Record object `key := tar` and let the server assign it the current
clock value as its last-modified attribute. -/
def upload (w : World) (key : String) (tar : Tar) : World :=
  { w with objects := setS w.objects key tar,
           lms := setS w.lms key w.clock,
           clock := w.clock + 1 }

/-- `tar.add(name)` with the working directory at `cwd`: resolves `name`
against `cwd`, raising FileNotFoundError when nothing is there; a file
becomes one entry, a directory is added recursively. -/
def tarAdd (l : Fs) (cwd : FPath) (name : String) : Except Err Tar :=
  match lookupP l (cwd ++ [name]) with
  | none => .error .fileNotFound
  | some (.file c) => .ok [([name], FsEntry.file c)]
  | some .dir =>
      .ok ((subtree l (cwd ++ [name])).map (fun e => (name :: e.1, e.2)))

/-- The in-memory archive loop of `S3FSStore.put` (fs.py 302-309): the
working directory is `base_dir`; each child of `dir_path` is iterated;
the conditional on `dir.lock` / `last_modified.txt` ends in `pass` and
therefore has no effect; the following `tar.add(path.name)` is
unconditional and resolves the bare name against `base_dir`. -/
def buildInMem (l : Fs) (base dirPath : FPath) : Except Err Tar :=
  (childNames l dirPath).foldlM
    (fun tar n =>
      -- `if path.is_file() and path.name in ("dir.lock", "last_modified.txt"):`
      -- `    pass`
      -- (no effect; the add below always runs)
      (tarAdd l base n).map (fun t => tar ++ t))
    []

/-- `shutil.make_archive(_, "gztar", root_dir=base, base_dir=name)`
(fs.py 317-322): archive the tree at `base ++ name` with entry paths
prefixed by `name`; per the note in `S3FSStore.put`, a missing source
silently yields an empty archive. -/
def makeArchiveTar (l : Fs) (base : FPath) (name : String) : Tar :=
  match lookupP l (base ++ pathOfName name) with
  | none => []
  | some (.file c) => [(pathOfName name, FsEntry.file c)]
  | some .dir =>
      (subtree l (base ++ pathOfName name)).map
        (fun e => (pathOfName name ++ e.1, e.2))

/-- `shutil.unpack_archive(archive, base)`: recreate each entry below
`base`, creating missing parent directories. -/
def unpackInto (base : FPath) (tar : Tar) (l : Fs) : Fs :=
  tar.foldl
    (fun l e =>
      match e.2 with
      | .dir => mkdirp l (base ++ e.1)
      | .file c => insertFile (mkdirp l (base ++ e.1).dropLast) (base ++ e.1) c)
    l

/-- `S3FSStore._download` (fs.py 243-266): create `base_dir`, download the
archive (counted), unpack it, remove the downloaded file, then write the
last-modified marker — into the directory named by
`remote_ziped_name.replace("tar.gz", "")`, which keeps the trailing dot. -/
def s3Download (base : FPath) (remoteZip : String) (localZipPath : FPath)
    (lm? : Option Nat) (w : World) : World × Except Err Unit :=
  let l0 := mkdirp w.lfs base
  match lookupS w.objects remoteZip with
  | none => ({ w with lfs := l0 }, .error .notFound)
  | some tar =>
      -- `self.s3.download_file(...)` materialises the archive file; its
      -- byte encoding is opaque, so the file content is a placeholder and
      -- `unpack` reads the entry list of the downloaded object directly.
      let l1 := insertFile l0 localZipPath []
      let l2 := unpackInto base tar l1
      -- `os.system(chmod -R 777)`: permissions are not modelled.
      let l3 := removeEntry l2 localZipPath
      let w1 := { w with lfs := l3, downloads := w.downloads + 1 }
      match lm? with
      | none =>
          match remoteLm w1 remoteZip with
          | none => (w1, .error .notFound)
          | some t =>
              match saveLocalLm base (pyStripTarGz remoteZip) t w1.lfs with
              | .ok l4 => ({ w1 with lfs := l4 }, .ok ())
              | .error e => (w1, .error e)
      | some t =>
          match saveLocalLm base (pyStripTarGz remoteZip) t w1.lfs with
          | .ok l4 => ({ w1 with lfs := l4 }, .ok ())
          | .error e => (w1, .error e)

/-- `S3FSStore.get` (fs.py 268-288): compare the local marker with the
remote last-modified attribute; equal means no-op, otherwise download. -/
def s3Get (name : String) (base : FPath) (w : World) :
    World × Except Err Unit :=
  let remoteZip := name ++ ".tar.gz"
  let localZipPath := base ++ pathOfName (name ++ ".tar.gz")
  match getLocalLm base name w.lfs with
  | .error e => (w, .error e)
  | .ok llm? =>
      match remoteLm w remoteZip with
      | none => (w, .error .notFound)
      | some rlm =>
          if llm? = some rlm then (w, .ok ())
          else s3Download base remoteZip localZipPath (some rlm) w

/-- `S3FSStore.put` (fs.py 291-331): choose the in-memory strategy when
twice the directory size is under the available memory (`availMem`),
otherwise build the archive on disk next to the directory; afterwards
re-query the remote last-modified attribute and save the local marker. -/
def s3Put (availMem : Nat) (name : String) (base : FPath) (w : World) :
    World × Except Err Unit :=
  let remoteZip := name ++ ".tar.gz"
  let dirPath := base ++ pathOfName name
  let dirSize := sizeOfDir w.lfs dirPath
  if dirSize * 2 < availMem then
    if isDir w.lfs dirPath then
      match buildInMem w.lfs base dirPath with
      | .error e => (w, .error e)
      | .ok tar =>
          let w1 := upload w remoteZip tar
          match remoteLm w1 remoteZip with
          | none => (w1, .error .notFound)
          | some t =>
              match saveLocalLm base name t w1.lfs with
              | .ok l2 => ({ w1 with lfs := l2 }, .ok ())
              | .error e => (w1, .error e)
    else (w, .error .fileNotFound)  -- `dir_path.iterdir()` on a missing dir
  else
    let tar := makeArchiveTar w.lfs base name
    let l1 := insertFile w.lfs (base ++ pathOfName remoteZip) []
    let w1 := upload { w with lfs := l1 } remoteZip tar
    let w2 := { w1 with lfs := removeEntry w1.lfs (base ++ pathOfName remoteZip) }
    match remoteLm w2 remoteZip with
    | none => (w2, .error .notFound)
    | some t =>
        match saveLocalLm base name t w2.lfs with
        | .ok l3 => ({ w2 with lfs := l3 }, .ok ())
        | .error e => (w2, .error e)

/-- `S3FSStore.delete` (fs.py 333-335): delete the object stored under the
bare resource name — not under the `.tar.gz` key that `put` uploads to. -/
def s3Del (name : String) (w : World) : World × Except Err Unit :=
  ({ w with objects := removeS w.objects name, lms := removeS w.lms name },
   .ok ())

/-!
The `copy` helper and the local backing store, and the `FileLock` /
`FileStorage` layers.  `dirhash` (checksumdir) and `hashlib.md5` are
modelled by the hashed content itself (hashes assumed collision free);
`checksumdir.dirhash` raises on a path that is not a directory.
-/

/-- `shutil.rmtree(dst, ignore_errors=True)` followed by
`shutil.copytree(src, dst)`. -/
def copyTree (l : Fs) (src dst : FPath) : Fs :=
  removeAll l dst ++ (subtree l src).map (fun e => (dst ++ e.1, e.2))

/-- `copy` (fs.py 37-52), returning the filesystem and how many copies
were performed (0 when the hash comparison skipped the write). -/
def copyOp (src dst : FPath) (l : Fs) : Except Err (Fs × Nat) :=
  if isDir l src then
    if existsP l dst then
      if isDir l dst then
        if subtree l src = subtree l dst then .ok (l, 0)
        else .ok (copyTree l src dst, 1)
      else .error .typeError  -- `dirhash(dst)` on a non-directory
    else .ok (copyTree l src dst, 1)
  else
    match lookupP l src with
    | some (.file cs) =>
        if existsP l dst then
          match lookupP l dst with
          | some (.file cd) =>
              if cs = cd then .ok (l, 0)
              else .ok (insertFile l dst cs, 1)
          | _ => .error .isADirectory  -- `open(dst, "rb")` on a directory
        else .ok (insertFile l dst cs, 1)
    | _ => .error .fileNotFound  -- `open(src, "rb")` on a missing source

/-- `LocalFSStore.put` (fs.py 118-123): copy the resource from `base_dir`
into the storage root under the same name (`compression_level` unused). -/
def localPut (storageRoot : FPath) (name : String) (base : FPath) (l : Fs) :
    Except Err (Fs × Nat) :=
  copyOp (base ++ pathOfName name) (storageRoot ++ pathOfName name) l

/-- `FileLock.__enter__` (fs.py 149-168): create the directory and the
`dir.lock` marker when the marker is missing (failures swallowed), then
open and flock it; if the marker still cannot be opened, raise
FileNotFoundError.  Blocking contention is invisible to a single-process
model, so a successful flock is immediate. -/
def acquireLockE (p : FPath) (l : Fs) : Except Err Fs :=
  let lockP := p ++ ["dir.lock"]
  let l1 := if isFile l lockP then l else writeQuiet (mkdirp l p) lockP []
  if isFile l1 lockP then .ok l1 else .error .fileNotFound

/-- `acquireLockE` lifted to a `World`. -/
def acquireLockW (p : FPath) (w : World) : World × Except Err Unit :=
  match acquireLockE p w.lfs with
  | .ok l => ({ w with lfs := l }, .ok ())
  | .error e => (w, .error e)

/-- The backing-store capability used by `FileStorage`
(`BaseFSStore.get/put/delete`). -/
structure FsStoreI where
  sget : String → FPath → World → World × Except Err Unit
  sput : String → FPath → World → World × Except Err Unit
  sdel : String → World → World × Except Err Unit

/-- The S3 variant, with `availMem` standing for
`psutil.virtual_memory().available`. -/
def s3StoreI (availMem : Nat) : FsStoreI :=
  { sget := s3Get, sput := s3Put availMem, sdel := s3Del }

/-- A `FileStorage` instance: its backing store, the resource folder name
`"{resource_group}_{company_id}_{resource_id}"`, the resource-group path
(`resource_group_path`), and the sync flag. -/
structure FStorage where
  store : FsStoreI
  folderName : String
  base : FPath
  sync : Bool

/-- `self.folder_path`. -/
def FStorage.folderPath (f : FStorage) : FPath := f.base ++ [f.folderName]

/-- A Python `Path` argument: whether it is absolute, and its components
(`Path(".")` has no components). -/
structure RP where
  absolute : Bool
  comps : List String
deriving DecidableEq

/-- `FileStorage._pull_no_lock` (fs.py 398-402): any failure of the
backing-store get is swallowed; side effects made before the failure
persist. -/
def FStorage.pullNoLock (f : FStorage) (w : World) : World :=
  match f.store.sget f.folderName f.base w with
  | (w', _) => w'

/-- `FileStorage.pull` (fs.py 393-395). -/
def FStorage.pull (f : FStorage) (w : World) : World × Except Err Unit :=
  match acquireLockW f.folderPath w with
  | (w1, .error e) => (w1, .error e)
  | (w1, .ok _) => (f.pullNoLock w1, .ok ())

/-- `FileStorage.pull_path` (fs.py 405-415): with `update=False` an
existing local sub-path short-circuits; otherwise the get (under the
joined name `folder_name/path`) runs with failures swallowed. -/
def FStorage.pullPath (f : FStorage) (pth : String) (update : Bool)
    (w : World) : World × Except Err Unit :=
  match acquireLockW f.folderPath w with
  | (w1, .error e) => (w1, .error e)
  | (w1, .ok _) =>
      if !update && existsP w1.lfs (f.folderPath ++ pathOfName pth) then
        (w1, .ok ())
      else
        match f.store.sget (f.folderName ++ "/" ++ pth) f.base w1 with
        | (w2, _) => (w2, .ok ())

/-- `FileStorage._push_no_lock` (fs.py 380-385). -/
def FStorage.pushNoLock (f : FStorage) (w : World) : World × Except Err Unit :=
  f.store.sput f.folderName f.base w

/-- `FileStorage.push` (fs.py 375-377). -/
def FStorage.push (f : FStorage) (w : World) : World × Except Err Unit :=
  match acquireLockW f.folderPath w with
  | (w1, .error e) => (w1, .error e)
  | (w1, .ok _) => f.pushNoLock w1

/-- `FileStorage.file_set` (fs.py 418-429): lock, pull when syncing,
write the file, push when syncing. -/
def FStorage.fileSet (f : FStorage) (name : String) (content : List Nat)
    (w : World) : World × Except Err Unit :=
  match acquireLockW f.folderPath w with
  | (w1, .error e) => (w1, .error e)
  | (w1, .ok _) =>
      let w2 := if f.sync then f.pullNoLock w1 else w1
      match writeFile w2.lfs (f.folderPath ++ pathOfName name) content with
      | .error e => (w2, .error e)
      | .ok l3 =>
          let w3 := { w2 with lfs := l3 }
          if f.sync then f.pushNoLock w3 else (w3, .ok ())

/-- `FileStorage.file_get` (fs.py 432-440): lock, pull when syncing, read. -/
def FStorage.fileGet (f : FStorage) (name : String) (w : World) :
    World × Except Err (List Nat) :=
  match acquireLockW f.folderPath w with
  | (w1, .error e) => (w1, .error e)
  | (w1, .ok _) =>
      let w2 := if f.sync then f.pullNoLock w1 else w1
      match readFile w2.lfs (f.folderPath ++ pathOfName name) with
      | .ok c => (w2, .ok c)
      | .error e => (w2, .error e)

/-- `FileStorage.get_path` (fs.py 485-515): lock, pull when syncing,
reject absolute paths, then return `folder_path / relative_path`,
creating the directory when the target does not exist.  Note the pull
and the lock-marker creation happen before the absolute-path check, and
the relative path is joined without resolution. -/
def FStorage.getPath (f : FStorage) (rel : RP) (w : World) :
    World × Except Err FPath :=
  match acquireLockW f.folderPath w with
  | (w1, .error e) => (w1, .error e)
  | (w1, .ok _) =>
      let w2 := if f.sync then f.pullNoLock w1 else w1
      if rel.absolute then (w2, .error .typeError)
      else
        let ret := f.folderPath ++ rel.comps
        if existsP w2.lfs (resolveDots ret) then (w2, .ok ret)
        else ({ w2 with lfs := mkdirp w2.lfs (resolveDots ret) }, .ok ret)

/-- `FileStorage._complete_removal` (fs.py 545-547): backing-store delete
under the folder name, then `shutil.rmtree` of the local directory. -/
def FStorage.completeRemoval (f : FStorage) (w : World) :
    World × Except Err Unit :=
  match f.store.sdel f.folderName w with
  | (w1, .error e) => (w1, .error e)
  | (w1, .ok _) =>
      if existsP w1.lfs f.folderPath then
        ({ w1 with lfs := removeAll w1.lfs f.folderPath }, .ok ())
      else (w1, .error .fileNotFound)  -- rmtree on a missing directory

/-- `FileStorage.delete` (fs.py 517-543): lock; reject absolute paths;
resolve the target; full removal when it is the resource root; otherwise
pull when syncing, require existence, unlink a file or rmdir an empty
directory, push when syncing. -/
def FStorage.deleteOp (f : FStorage) (rel : RP) (w : World) :
    World × Except Err Unit :=
  match acquireLockW f.folderPath w with
  | (w1, .error e) => (w1, .error e)
  | (w1, .ok _) =>
      if rel.absolute then (w1, .error .typeError)
      else
        let p := resolveDots (f.folderPath ++ rel.comps)
        if p = resolveDots f.folderPath then f.completeRemoval w1
        else
          let w2 := if f.sync then f.pullNoLock w1 else w1
          if !existsP w2.lfs p then (w2, .error .pathNotExists)
          else if isFile w2.lfs p then
            let w3 := { w2 with lfs := removeEntry w2.lfs p }
            if f.sync then f.pushNoLock w3 else (w3, .ok ())
          else if (childNames w2.lfs p).isEmpty then
            let w3 := { w2 with lfs := removeEntry w2.lfs p }
            if f.sync then f.pushNoLock w3 else (w3, .ok ())
          else (w2, .error .dirNotEmpty)  -- Path.rmdir on a non-empty dir

deriving instance DecidableEq for Except

/-!
Concrete scenarios used by the theorems: a predictor resource
`predictor_1_1` under the resource-group path `content/predictor`.
-/

/-- The resource-group path (`resource_group_path`). -/
def base0 : FPath := ["content", "predictor"]

/-- The resource folder name. -/
def fname0 : String := "predictor_1_1"

/-- The resource directory (`folder_path`). -/
def folder0 : FPath := ["content", "predictor", "predictor_1_1"]

/-- The storage-root and resource-group directories. -/
def rootDirs : Fs := [(["content"], FsEntry.dir), (base0, FsEntry.dir)]

/-- An S3-backed `FileStorage` for the concrete resource. -/
def s3fs (availMem : Nat) (sync : Bool) : FStorage :=
  ⟨s3StoreI availMem, fname0, base0, sync⟩

/-- A freshly constructed resource: the directory exists and is empty. -/
def wFresh : World := ⟨rootDirs ++ [(folder0, FsEntry.dir)], [], [], 0, 0⟩

/-- An ordinary local resource state: the lock marker plus one model file. -/
def wNat : World :=
  ⟨rootDirs ++
    [(folder0, FsEntry.dir),
     (folder0 ++ ["dir.lock"], FsEntry.file []),
     (folder0 ++ ["model.bin"], FsEntry.file [7, 7])], [], [], 0, 0⟩

/-- Same resource, with files of the same names (different contents)
also present directly in the resource-group directory. -/
def wCon : World :=
  ⟨wNat.lfs ++
    [(base0 ++ ["dir.lock"], FsEntry.file [9]),
     (base0 ++ ["model.bin"], FsEntry.file [8])], [], [], 0, 0⟩

/-- A remote archive produced by an earlier push. -/
def tarY : Tar :=
  [(["predictor_1_1"], FsEntry.dir),
   (["predictor_1_1", "data0.txt"], FsEntry.file [1])]

/-- A resource that has been pushed: local content plus the remote
archive object `predictor_1_1.tar.gz`. -/
def wPushed : World :=
  ⟨wNat.lfs, [("predictor_1_1.tar.gz", tarY)], [("predictor_1_1.tar.gz", 3)], 4, 0⟩

def w5 : World := ⟨rootDirs, [], [], 0, 0⟩

def wEq : World :=
  ⟨rootDirs ++
    [(folder0, FsEntry.dir),
     (folder0 ++ ["last_modified.txt"], FsEntry.file [5]),
     (folder0 ++ ["data0.txt"], FsEntry.file [1])],
   [("predictor_1_1.tar.gz", tarY)], [("predictor_1_1.tar.gz", 5)], 9, 0⟩

def wStale : World :=
  ⟨rootDirs ++ [(folder0, FsEntry.dir)],
   [("predictor_1_1.tar.gz", tarY)], [("predictor_1_1.tar.gz", 7)], 9, 0⟩

def w10 : World :=
  ⟨rootDirs ++
    [(folder0, FsEntry.dir),
     (folder0 ++ ["dir.lock"], FsEntry.file []),
     (base0 ++ ["victim"], FsEntry.file [5])], [], [], 0, 0⟩

/-!
List lemmas about the filesystem representation, used by the general
theorems below.
-/

theorem stripPre_append (p : FPath) : ∀ r, stripPre p (p ++ r) = some r := by
  induction p with
  | nil => intro r; rfl
  | cons a p ih => intro r; simp [stripPre, ih]

theorem stripPre_eq {p : FPath} : ∀ {q r}, stripPre p q = some r → q = p ++ r := by
  induction p with
  | nil => intro q r h; simp [stripPre] at h; simp [h]
  | cons a p ih =>
      intro q r h
      cases q with
      | nil => simp [stripPre] at h
      | cons b q =>
          simp only [stripPre] at h
          split at h
          · next hab => simp [hab, ih h]
          · exact absurd h (by simp)

theorem stripPre_self (p : FPath) : stripPre p p = some [] := by
  have := stripPre_append p []
  simpa using this

theorem lookupP_append_some {a : Fs} {p : FPath} {e : FsEntry} (b : Fs)
    (h : lookupP a p = some e) : lookupP (a ++ b) p = some e := by
  induction a with
  | nil => simp [lookupP] at h
  | cons x t ih =>
      simp only [lookupP, List.cons_append] at *
      split at h
      · next hx => simp [hx, h]
      · next hx => simp [hx, ih h]

theorem lookupP_append_none {a : Fs} {p : FPath} (b : Fs)
    (h : lookupP a p = none) : lookupP (a ++ b) p = lookupP b p := by
  induction a with
  | nil => simp
  | cons x t ih =>
      simp only [lookupP, List.cons_append] at *
      split at h
      · exact absurd h (by simp)
      · next hx => simp [hx, ih h]

theorem lookupP_map_pre (s : List (FPath × FsEntry)) (dst p : FPath) :
    lookupP (s.map (fun e => (dst ++ e.1, e.2))) (dst ++ p) = lookupP s p := by
  induction s with
  | nil => rfl
  | cons x t ih =>
      simp only [List.map_cons, lookupP]
      by_cases hx : x.1 = p
      · simp [hx]
      · have : ¬ (dst ++ x.1 = dst ++ p) := fun h => hx (List.append_cancel_left h)
        simp [hx, this, ih]

theorem lookupP_map_other (s : List (FPath × FsEntry)) {dst q : FPath}
    (h : stripPre dst q = none) :
    lookupP (s.map (fun e => (dst ++ e.1, e.2))) q = none := by
  induction s with
  | nil => rfl
  | cons x t ih =>
      simp only [List.map_cons, lookupP]
      have : ¬ (dst ++ x.1 = q) := by
        intro he
        rw [← he, stripPre_append] at h
        exact absurd h (by simp)
      simp [this, ih]

theorem lookupP_subtree_nil (l : Fs) (p : FPath) :
    lookupP (subtree l p) [] = lookupP l p := by
  induction l with
  | nil => rfl
  | cons x t ih =>
      simp only [subtree, List.filterMap_cons, lookupP]
      rcases hx : stripPre p x.1 with _ | r
      · have : ¬ (x.1 = p) := by
          intro he; rw [he, stripPre_self] at hx; exact absurd hx (by simp)
        simp only [subtree] at ih
        simp [this, ih]
      · have hq := stripPre_eq hx
        cases r with
        | nil =>
            have : x.1 = p := by simpa using hq
            simp only [lookupP, subtree] at *
            simp [this, ih]
        | cons c r =>
            have : ¬ (x.1 = p) := by
              intro he; rw [he, stripPre_self] at hx; simp at hx
            simp only [lookupP, subtree] at *
            simp [this, ih]

theorem lookupP_filter_ne {l : Fs} {p q : FPath} (h : q ≠ p) :
    lookupP (l.filter (fun e => e.1 ≠ p)) q = lookupP l q := by
  induction l with
  | nil => rfl
  | cons x t ih =>
      rw [List.filter_cons]
      by_cases hx : x.1 = p
      · rw [if_neg (by simp [hx])]
        rw [ih]
        have hxq : ¬ x.1 = q := by rw [hx]; exact fun he => h he.symm
        simp [lookupP, hxq]
      · rw [if_pos (by simp [hx])]
        simp only [lookupP]
        rw [ih]

theorem lookupP_filter_self (l : Fs) (p : FPath) :
    lookupP (l.filter (fun e => e.1 ≠ p)) p = none := by
  induction l with
  | nil => rfl
  | cons x t ih =>
      rw [List.filter_cons]
      by_cases hx : x.1 = p
      · rw [if_neg (by simp [hx])]; exact ih
      · rw [if_pos (by simp [hx])]
        simp only [lookupP]
        rw [if_neg hx]
        exact ih

theorem lookupP_insertFile_self (l : Fs) (p : FPath) (c : List Nat) :
    lookupP (insertFile l p c) p = some (FsEntry.file c) := by
  unfold insertFile
  rw [lookupP_append_none _ (lookupP_filter_self l p)]
  simp [lookupP]

theorem lookupP_insertFile_other {l : Fs} {p q : FPath} (c : List Nat) (h : q ≠ p) :
    lookupP (insertFile l p c) q = lookupP l q := by
  unfold insertFile
  rcases he : lookupP (l.filter (fun e => e.1 ≠ p)) q with _ | e
  · rw [lookupP_append_none _ he]
    rw [lookupP_filter_ne h] at he
    simp [lookupP, Ne.symm h, he]
  · rw [lookupP_append_some _ he]
    rw [lookupP_filter_ne h] at he
    exact he.symm

theorem lookupP_removeAll_not_pre {l : Fs} {p q : FPath}
    (h : stripPre p q = none) :
    lookupP (removeAll l p) q = lookupP l q := by
  induction l with
  | nil => rfl
  | cons x t ih =>
      unfold removeAll at *
      rw [List.filter_cons]
      by_cases hx : stripPre p x.1 = none
      · rw [if_pos (by simp [hx])]
        simp only [lookupP]
        rw [ih]
      · rw [if_neg (by simp [hx])]
        have hne : ¬ x.1 = q := by
          intro he; rw [he, h] at hx; exact hx rfl
        rw [ih]
        simp [lookupP, hne]

theorem lookupP_removeAll_pre {l : Fs} {p q : FPath} {r : FPath}
    (h : stripPre p q = some r) :
    lookupP (removeAll l p) q = none := by
  induction l with
  | nil => rfl
  | cons x t ih =>
      unfold removeAll at *
      rw [List.filter_cons]
      by_cases hx : stripPre p x.1 = none
      · rw [if_pos (by simp [hx])]
        simp only [lookupP]
        have hne : ¬ x.1 = q := by
          intro he; rw [← he, hx] at h; exact absurd h (by simp)
        rw [if_neg hne]
        exact ih
      · rw [if_neg (by simp [hx])]
        exact ih

theorem subtree_append (a b : Fs) (p : FPath) :
    subtree (a ++ b) p = subtree a p ++ subtree b p := by
  unfold subtree
  exact List.filterMap_append a b _

theorem subtree_removeAll_self (l : Fs) (p : FPath) :
    subtree (removeAll l p) p = [] := by
  induction l with
  | nil => rfl
  | cons x t ih =>
      unfold removeAll subtree at *
      rw [List.filter_cons]
      by_cases hx : stripPre p x.1 = none
      · rw [if_pos (by simp [hx])]
        rw [List.filterMap_cons]
        simp [hx, ih]
      · rw [if_neg (by simp [hx])]
        exact ih

theorem subtree_map_self (s : List (FPath × FsEntry)) (dst : FPath) :
    subtree (s.map (fun e => (dst ++ e.1, e.2))) dst = s := by
  induction s with
  | nil => rfl
  | cons x t ih =>
      unfold subtree at *
      simp only [List.map_cons, List.filterMap_cons, stripPre_append]
      simp [ih]

theorem stripPre_comparable :
    ∀ {q src dst : FPath}, (stripPre src q).isSome → (stripPre dst q).isSome →
    stripPre src dst = none → stripPre dst src = none → False := by
  intro q
  induction q with
  | nil =>
      intro src dst h1 h2 h3 _
      cases src with
      | nil => simp [stripPre] at h3
      | cons a s => simp [stripPre] at h1
  | cons c q ih =>
      intro src dst h1 h2 h3 h4
      cases src with
      | nil => simp [stripPre] at h3
      | cons a s =>
          cases dst with
          | nil => simp [stripPre] at h4
          | cons b d =>
              simp only [stripPre] at h1 h2 h3 h4
              by_cases hac : a = c
              · by_cases hbc : b = c
                · subst hac; subst hbc
                  rw [if_pos rfl] at h1 h2
                  rw [if_pos rfl] at h3 h4
                  exact ih h1 h2 h3 h4
                · rw [if_neg hbc] at h2; simp at h2
              · rw [if_neg hac] at h1; simp at h1

theorem subtree_removeAll_other {l : Fs} {src dst : FPath}
    (h1 : stripPre src dst = none) (h2 : stripPre dst src = none) :
    subtree (removeAll l dst) src = subtree l src := by
  induction l with
  | nil => rfl
  | cons x t ih =>
      unfold removeAll subtree at *
      rw [List.filter_cons]
      by_cases hx : stripPre dst x.1 = none
      · rw [if_pos (by simp [hx])]
        rw [List.filterMap_cons, List.filterMap_cons]
        rw [ih]
      · rw [if_neg (by simp [hx])]
        have hs : stripPre src x.1 = none := by
          rcases hy : stripPre src x.1 with _ | r
          · rfl
          · rcases hz : stripPre dst x.1 with _ | r2
            · exact absurd hz hx
            · exact absurd (stripPre_comparable (q := x.1)
                (by simp [hy]) (by simp [hz]) h1 h2) not_false
        rw [List.filterMap_cons]
        simp [hs, ih]

theorem subtree_map_other (s : List (FPath × FsEntry)) {dst src : FPath}
    (h1 : stripPre src dst = none) (h2 : stripPre dst src = none) :
    subtree (s.map (fun e => (dst ++ e.1, e.2))) src = [] := by
  induction s with
  | nil => rfl
  | cons x t ih =>
      unfold subtree at *
      simp only [List.map_cons, List.filterMap_cons]
      have hs : stripPre src (dst ++ x.1) = none := by
        rcases hy : stripPre src (dst ++ x.1) with _ | r
        · rfl
        · exact absurd (stripPre_comparable (q := dst ++ x.1)
            (by simp [hy]) (by simp [stripPre_append]) h1 h2) not_false
      simp [hs, ih]

theorem stripPre_none_ne {a b : FPath} (h : stripPre a b = none) : b ≠ a := by
  intro he
  rw [he, stripPre_self] at h
  exact absurd h (by simp)

theorem copyTree_lookup_src {l : Fs} {src dst : FPath}
    (h2 : stripPre dst src = none) :
    lookupP (copyTree l src dst) src = lookupP l src := by
  unfold copyTree
  rcases he : lookupP (removeAll l dst) src with _ | e
  · rw [lookupP_append_none _ he]
    rw [lookupP_removeAll_not_pre h2] at he
    rw [lookupP_map_other _ h2, he]
  · rw [lookupP_append_some _ he]
    rw [lookupP_removeAll_not_pre h2] at he
    exact he.symm

theorem copyTree_lookup_dst (l : Fs) (src dst : FPath) :
    lookupP (copyTree l src dst) dst = lookupP l src := by
  unfold copyTree
  rw [lookupP_append_none _ (lookupP_removeAll_pre (stripPre_self dst))]
  have h := lookupP_map_pre (subtree l src) dst []
  rw [List.append_nil] at h
  rw [h, lookupP_subtree_nil]

theorem copyTree_subtree_dst (l : Fs) (src dst : FPath) :
    subtree (copyTree l src dst) dst = subtree l src := by
  unfold copyTree
  rw [subtree_append, subtree_removeAll_self, List.nil_append, subtree_map_self]

theorem copyTree_subtree_src {l : Fs} {src dst : FPath}
    (h1 : stripPre src dst = none) (h2 : stripPre dst src = none) :
    subtree (copyTree l src dst) src = subtree l src := by
  unfold copyTree
  rw [subtree_append, subtree_removeAll_other h1 h2, subtree_map_other _ h1 h2,
    List.append_nil]

theorem copyOp_after_copyTree {l : Fs} {src dst : FPath}
    (h1 : stripPre src dst = none) (h2 : stripPre dst src = none)
    (hd : lookupP l src = some FsEntry.dir) :
    copyOp src dst (copyTree l src dst) = .ok (copyTree l src dst, 0) := by
  have hsrc' : lookupP (copyTree l src dst) src = some FsEntry.dir := by
    rw [copyTree_lookup_src h2, hd]
  have hdst' : lookupP (copyTree l src dst) dst = some FsEntry.dir := by
    rw [copyTree_lookup_dst, hd]
  have h3 : subtree (copyTree l src dst) src = subtree (copyTree l src dst) dst := by
    rw [copyTree_subtree_src h1 h2, copyTree_subtree_dst]
  unfold copyOp
  rw [show isDir (copyTree l src dst) src = true by simp [isDir, hsrc']]
  rw [show existsP (copyTree l src dst) dst = true by simp [existsP, hdst']]
  rw [show isDir (copyTree l src dst) dst = true by simp [isDir, hdst']]
  simp [h3]

theorem copyOp_after_insertFile {l : Fs} {src dst : FPath} {cs : List Nat}
    (h2 : stripPre dst src = none)
    (hcs : lookupP l src = some (FsEntry.file cs)) :
    copyOp src dst (insertFile l dst cs) = .ok (insertFile l dst cs, 0) := by
  have hne : src ≠ dst := stripPre_none_ne h2
  have hsrc' : lookupP (insertFile l dst cs) src = some (FsEntry.file cs) := by
    rw [lookupP_insertFile_other _ hne, hcs]
  have hdst' : lookupP (insertFile l dst cs) dst = some (FsEntry.file cs) :=
    lookupP_insertFile_self l dst cs
  unfold copyOp
  rw [show isDir (insertFile l dst cs) src = false by simp [isDir, hsrc']]
  rw [if_neg (by simp)]
  rw [hsrc']
  rw [show existsP (insertFile l dst cs) dst = true by simp [existsP, hdst']]
  simp [hdst']

theorem isDir_true_iff (l : Fs) (p : FPath) :
    isDir l p = true ↔ lookupP l p = some FsEntry.dir := by
  unfold isDir
  cases h : lookupP l p with
  | none => simp
  | some e => cases e <;> simp

theorem isFile_true_iff (l : Fs) (p : FPath) :
    isFile l p = true ↔ ∃ c, lookupP l p = some (FsEntry.file c) := by
  unfold isFile
  cases h : lookupP l p with
  | none => simp
  | some e => cases e <;> simp

theorem copyOp_idem (src dst : FPath) (l : Fs)
    (h1 : stripPre src dst = none) (h2 : stripPre dst src = none)
    (h3 : (isDir l src = true ∧ isFile l dst = false) ∨
          (isFile l src = true ∧ isDir l dst = false)) :
    ∃ l' n, copyOp src dst l = .ok (l', n) ∧ copyOp src dst l' = .ok (l', 0) := by
  rcases h3 with ⟨hd, hf⟩ | ⟨hf, hd⟩
  · have hlook : lookupP l src = some FsEntry.dir := (isDir_true_iff l src).1 hd
    cases hex : existsP l dst with
    | false =>
        have first : copyOp src dst l = .ok (copyTree l src dst, 1) := by
          unfold copyOp
          rw [hd, if_pos rfl, hex, if_neg (by simp)]
        exact ⟨_, _, first, copyOp_after_copyTree h1 h2 hlook⟩
    | true =>
        have hdd : lookupP l dst = some FsEntry.dir := by
          unfold existsP at hex
          rcases hq : lookupP l dst with _ | e
          · rw [hq] at hex; simp at hex
          · cases e with
            | file c =>
                exfalso
                have : isFile l dst = true := by simp [isFile, hq]
                rw [this] at hf
                exact absurd hf (by simp)
            | dir => rfl
        by_cases heq : subtree l src = subtree l dst
        · have first : copyOp src dst l = .ok (l, 0) := by
            unfold copyOp
            rw [hd, if_pos rfl, hex, if_pos rfl]
            rw [show isDir l dst = true from (isDir_true_iff l dst).2 hdd, if_pos rfl]
            rw [if_pos heq]
          exact ⟨l, 0, first, first⟩
        · have first : copyOp src dst l = .ok (copyTree l src dst, 1) := by
            unfold copyOp
            rw [hd, if_pos rfl, hex, if_pos rfl]
            rw [show isDir l dst = true from (isDir_true_iff l dst).2 hdd, if_pos rfl]
            rw [if_neg heq]
          exact ⟨_, _, first, copyOp_after_copyTree h1 h2 hlook⟩
  · obtain ⟨cs, hcs⟩ := (isFile_true_iff l src).1 hf
    have hnd : isDir l src = false := by simp [isDir, hcs]
    cases hex : existsP l dst with
    | false =>
        have first : copyOp src dst l = .ok (insertFile l dst cs, 1) := by
          unfold copyOp
          rw [hnd, if_neg (by simp)]
          simp only [hcs, hex]
          rw [if_neg (by simp)]
        exact ⟨_, _, first, copyOp_after_insertFile h2 hcs⟩
    | true =>
        have hcd : ∃ cd, lookupP l dst = some (FsEntry.file cd) := by
          unfold existsP at hex
          rcases hq : lookupP l dst with _ | e
          · rw [hq] at hex; simp at hex
          · cases e with
            | file c => exact ⟨c, rfl⟩
            | dir =>
                exfalso
                have : isDir l dst = true := by simp [isDir, hq]
                rw [this] at hd
                exact absurd hd (by simp)
        obtain ⟨cd, hcd⟩ := hcd
        by_cases hceq : cs = cd
        · have first : copyOp src dst l = .ok (l, 0) := by
            unfold copyOp
            rw [hnd, if_neg (by simp)]
            simp only [hcs, hex]
            rw [if_pos trivial]
            simp only [hcd]
            rw [if_pos hceq]
          exact ⟨l, 0, first, first⟩
        · have first : copyOp src dst l = .ok (insertFile l dst cs, 1) := by
            unfold copyOp
            rw [hnd, if_neg (by simp)]
            simp only [hcs, hex]
            rw [if_pos trivial]
            simp only [hcd]
            rw [if_neg hceq]
          exact ⟨_, _, first, copyOp_after_insertFile h2 hcs⟩

theorem lookupP_addDirIfMissing_some {l : Fs} {q p : FPath} {e : FsEntry}
    (h : lookupP l p = some e) : lookupP (addDirIfMissing l q) p = some e := by
  unfold addDirIfMissing
  split_ifs with hq hs
  · exact h
  · exact h
  · exact lookupP_append_some _ h

theorem lookupP_addDirsList_some :
    ∀ (qs : List FPath) {l : Fs} {p : FPath} {e : FsEntry},
    lookupP l p = some e → lookupP (addDirsList l qs) p = some e := by
  intro qs
  induction qs with
  | nil => intro l p e h; exact h
  | cons q t ih => intro l p e h; exact ih (lookupP_addDirIfMissing_some h)

theorem lookupP_addDirIfMissing_self {l : Fs} {q : FPath}
    (hq : q.isEmpty = false) :
    (lookupP (addDirIfMissing l q) q).isSome = true := by
  unfold addDirIfMissing
  rw [hq, if_neg (by simp)]
  cases hs : (lookupP l q).isSome with
  | true => rw [if_pos (by simp [hs])]; exact hs
  | false =>
      rw [if_neg (by simp [hs])]
      have hn : lookupP l q = none := by
        cases hv : lookupP l q
        · rfl
        · rw [hv] at hs; simp at hs
      rw [lookupP_append_none _ hn]
      simp [lookupP]

theorem lookupP_addDirsList_mem :
    ∀ (qs : List FPath) (l : Fs) (q : FPath), q ∈ qs → q.isEmpty = false →
    (lookupP (addDirsList l qs) q).isSome = true := by
  intro qs
  induction qs with
  | nil => intro l q hmem; exact absurd hmem (by simp)
  | cons x t ih =>
      intro l q hmem hq
      rcases List.mem_cons.1 hmem with rfl | hmem
      · rcases hv : lookupP (addDirIfMissing l q) q with _ | e
        · have := lookupP_addDirIfMissing_self (l := l) hq
          rw [hv] at this; exact absurd this (by simp)
        · have := lookupP_addDirsList_some t hv
          simp [addDirsList, this]
      · exact ih _ q hmem hq

theorem mkdirp_lookup_some {l : Fs} {p q : FPath} {e : FsEntry}
    (h : lookupP l q = some e) : lookupP (mkdirp l p) q = some e :=
  lookupP_addDirsList_some _ h

theorem mkdirp_exists (l : Fs) {p : FPath} (hp : p ≠ []) :
    existsP (mkdirp l p) p = true := by
  have hlen : 0 < p.length := List.length_pos.2 hp
  have hmem : p ∈ prefixesOf p := by
    unfold prefixesOf
    refine List.mem_map.2 ⟨p.length - 1, List.mem_range.2 (by omega), ?_⟩
    rw [Nat.sub_add_cancel hlen, List.take_length]
  have hq : p.isEmpty = false := by
    cases p with
    | nil => exact absurd rfl hp
    | cons a t => rfl
  exact lookupP_addDirsList_mem _ l p hmem hq

theorem acquireLockE_isFile {p : FPath} {l l' : Fs}
    (h : acquireLockE p l = .ok l') : isFile l' (p ++ ["dir.lock"]) = true := by
  unfold acquireLockE at h
  dsimp only at h
  split at h
  · next hc =>
      simp only [Except.ok.injEq] at h
      rw [← h]
      exact hc
  · split at h
    · next hc =>
        simp only [Except.ok.injEq] at h
        rw [← h]
        exact hc
    · exact Except.noConfusion h

/-- An S3-backed `FileStorage` with explicit parameters. -/
def mkS3FS (availMem : Nat) (name : String) (base : FPath) (sync : Bool) :
    FStorage :=
  ⟨s3StoreI availMem, name, base, sync⟩

theorem acquireLockW_ok {p : FPath} {w : World} {l' : Fs}
    (hl : acquireLockE p w.lfs = .ok l') :
    acquireLockW p w = ({w with lfs := l'}, .ok ()) := by
  unfold acquireLockW
  rw [hl]

theorem s3Get_fst_lms_none {name : String} {base : FPath} {w : World}
    (h : lookupS w.lms (name ++ ".tar.gz") = none) :
    (s3Get name base w).1 = w := by
  unfold s3Get remoteLm
  rcases hg : getLocalLm base name w.lfs with e | o
  · simp [hg]
  · simp [hg, h]

theorem pullNoLock_lms_none (availMem : Nat) (name : String) (base : FPath)
    (sync : Bool) {w : World}
    (h : lookupS w.lms (name ++ ".tar.gz") = none) :
    (mkS3FS availMem name base sync).pullNoLock w = w := by
  show (s3Get name base w).1 = w
  exact s3Get_fst_lms_none h

/-- C6: `pull` and `pull_path` never propagate a backing-store failure:
for a resource that has never been pushed (no remote object, hence the
remote last-modified query fails), both return normally and the local
state is exactly what the lock acquisition left — an empty local state,
not an error. -/
theorem c6_pull_swallows_backend_failures
    (availMem : Nat) (name pth : String) (base : FPath) (sync upd : Bool)
    (w : World) (l' : Fs)
    (hl : acquireLockE (base ++ [name]) w.lfs = .ok l')
    (h2 : lookupS w.lms (name ++ ".tar.gz") = none)
    (h3 : lookupS w.lms (name ++ "/" ++ pth ++ ".tar.gz") = none) :
    (mkS3FS availMem name base sync).pull w = ({w with lfs := l'}, .ok ()) ∧
    (mkS3FS availMem name base sync).pullPath pth upd w
      = ({w with lfs := l'}, .ok ()) := by
  have hfp : (mkS3FS availMem name base sync).folderPath = base ++ [name] := rfl
  constructor
  · unfold FStorage.pull
    rw [hfp, acquireLockW_ok hl]
    dsimp only
    rw [pullNoLock_lms_none availMem name base sync (w := {w with lfs := l'}) h2]
  · unfold FStorage.pullPath
    rw [hfp, acquireLockW_ok hl]
    dsimp only
    rcases hc : (!upd && existsP l' (base ++ [name] ++ pathOfName pth)) with _ | _
    · rw [if_neg (by simp)]
      show ((s3Get (name ++ "/" ++ pth) base {w with lfs := l'}).1, Except.ok ())
        = ({w with lfs := l'}, Except.ok ())
      rw [s3Get_fst_lms_none (w := {w with lfs := l'}) h3]
    · rw [if_pos rfl]

/-- C5 (amended): `get_path` and `delete` reject an absolute relative
path with a TypeError, but only after the lock acquisition has created
the resource directory and the `dir.lock` marker when missing, and (for
`get_path` in synchronized mode) after a pull; the resulting state is
exactly the lock-acquired (and, for `get_path` when syncing, pulled)
state. -/
theorem c5_amended_absolute_rejected_after_lock_and_pull
    (availMem : Nat) (name : String) (base : FPath) (sync : Bool)
    (rel : RP) (w : World) (l' : Fs)
    (hl : acquireLockE (base ++ [name]) w.lfs = .ok l')
    (habs : rel.absolute = true) :
    (mkS3FS availMem name base sync).deleteOp rel w
      = ({w with lfs := l'}, .error .typeError) ∧
    (mkS3FS availMem name base sync).getPath rel w
      = ((if sync then (mkS3FS availMem name base sync).pullNoLock {w with lfs := l'}
          else {w with lfs := l'}), .error .typeError) := by
  have hfp : (mkS3FS availMem name base sync).folderPath = base ++ [name] := rfl
  constructor
  · unfold FStorage.deleteOp
    rw [hfp, acquireLockW_ok hl]
    dsimp only
    rw [habs, if_pos rfl]
  · unfold FStorage.getPath
    rw [hfp, acquireLockW_ok hl]
    dsimp only
    rw [habs, if_pos rfl]
    rfl

/-- C4 (amended): there is no Deleted state guarding a `FileStorage`
instance: whenever the lock is acquirable — in particular after a full
removal, when the resource directory is gone and the acquisition
recreates it together with `dir.lock` — a non-synced `get_path` on a
non-absolute path returns normally, leaves the lock marker in place, and
(re)creates the requested target instead of failing. -/
theorem c4_amended_get_path_after_removal_succeeds
    (availMem : Nat) (name : String) (base : FPath) (rel : RP)
    (w : World) (l' : Fs)
    (hl : acquireLockE (base ++ [name]) w.lfs = .ok l')
    (habs : rel.absolute = false)
    (hne : resolveDots (base ++ [name] ++ rel.comps) ≠ []) :
    ((mkS3FS availMem name base false).getPath rel w).2
      = .ok (base ++ [name] ++ rel.comps) ∧
    isFile ((mkS3FS availMem name base false).getPath rel w).1.lfs
      ((base ++ [name]) ++ ["dir.lock"]) = true ∧
    existsP ((mkS3FS availMem name base false).getPath rel w).1.lfs
      (resolveDots (base ++ [name] ++ rel.comps)) = true := by
  have hfp : (mkS3FS availMem name base false).folderPath = base ++ [name] := rfl
  have hflock : isFile l' ((base ++ [name]) ++ ["dir.lock"]) = true :=
    acquireLockE_isFile hl
  rcases he : existsP l' (resolveDots (base ++ [name] ++ rel.comps)) with _ | _
  · have key : (mkS3FS availMem name base false).getPath rel w
        = ({w with lfs := mkdirp l' (resolveDots (base ++ [name] ++ rel.comps))},
           Except.ok (base ++ [name] ++ rel.comps)) := by
      unfold FStorage.getPath
      rw [hfp, acquireLockW_ok hl]
      simp only [mkS3FS]
      rw [habs]
      simp only [Bool.false_eq_true, if_false]
      rw [if_neg (by simpa using he)]
    rw [key]
    refine ⟨rfl, ?_, ?_⟩
    · obtain ⟨c, hc⟩ := (isFile_true_iff _ _).1 hflock
      exact (isFile_true_iff _ _).2 ⟨c, mkdirp_lookup_some hc⟩
    · exact mkdirp_exists l' hne
  · have key : (mkS3FS availMem name base false).getPath rel w
        = ({w with lfs := l'}, Except.ok (base ++ [name] ++ rel.comps)) := by
      unfold FStorage.getPath
      rw [hfp, acquireLockW_ok hl]
      simp only [mkS3FS]
      rw [habs]
      simp only [Bool.false_eq_true, if_false]
      rw [if_pos (by simpa using he)]
    rw [key]
    exact ⟨rfl, hflock, he⟩

/-!
Claim theorems.
-/

/-- C1: fails on the code. For an ordinary resource directory (lock
marker plus a model file) the in-memory `put` raises FileNotFoundError
— `tar.add(path.name)` resolves bare child names against `base_dir`,
the working directory, where they do not exist — so no archive is
uploaded at all; and when same-named files do exist in `base_dir`, the
uploaded archive contains `dir.lock` and `last_modified.txt` entries
(the exclusion conditional ends in `pass` and has no effect), with
contents read from `base_dir` rather than the resource directory. -/
theorem c1_put_includes_marker_files_or_fails :
    s3Put 1000000 fname0 base0 wNat = (wNat, .error .fileNotFound) ∧
    (s3Put 1000000 fname0 base0 wCon).2 = .ok () ∧
    lookupS (s3Put 1000000 fname0 base0 wCon).1.objects "predictor_1_1.tar.gz"
      = some [(["dir.lock"], FsEntry.file [9]), (["model.bin"], FsEntry.file [8])] ∧
    (["dir.lock"], FsEntry.file [9]) ∈
      ((s3Put 1000000 fname0 base0 wCon).1.objects.map (fun e => e.2)).foldl
        (fun acc t => acc ++ t) [] := by
  refine ⟨by decide, by decide, by decide, by decide⟩

/-- C2: fails on the code. On the same resource content the two
strategies are not equivalent: with ample memory the in-memory build
fails with FileNotFoundError and uploads nothing, while with no
available memory the on-disk build succeeds and uploads an archive
whose entries are prefixed with the folder name and include both
reserved marker files. -/
theorem c2_archive_strategies_not_equivalent :
    (s3Put 1000000 fname0 base0 wNat).2 = .error .fileNotFound ∧
    lookupS (s3Put 1000000 fname0 base0 wNat).1.objects "predictor_1_1.tar.gz"
      = none ∧
    (s3Put 0 fname0 base0 wNat).2 = .ok () ∧
    lookupS (s3Put 0 fname0 base0 wNat).1.objects "predictor_1_1.tar.gz"
      = some [(["predictor_1_1"], FsEntry.dir),
              (["predictor_1_1", "dir.lock"], FsEntry.file []),
              (["predictor_1_1", "model.bin"], FsEntry.file [7, 7])] := by
  refine ⟨by decide, by decide, by decide, by decide⟩

/-- C3: fails on the code. After `delete(".")` on the resource root the
local directory is gone, but the remote archive object
`predictor_1_1.tar.gz` is still present: `S3FSStore.delete` deletes the
key `predictor_1_1`, under which nothing was ever stored. -/
theorem c3_full_removal_leaves_remote_archive :
    ((s3fs 1000 false).deleteOp ⟨false, []⟩ wPushed).2 = .ok () ∧
    existsP ((s3fs 1000 false).deleteOp ⟨false, []⟩ wPushed).1.lfs folder0 = false ∧
    lookupS ((s3fs 1000 false).deleteOp ⟨false, []⟩ wPushed).1.objects
      "predictor_1_1.tar.gz" = some tarY := by
  refine ⟨by decide, by decide, by decide⟩

/-- C4 (counterexample): after the full-removal `delete(".")`, a further
`get_path` on the same instance does not fail — it returns normally and
recreates the resource directory, the `dir.lock` marker, and the
requested sub-path. -/
theorem c4_counterexample_get_path_after_delete_recreates :
    ((s3fs 1000 false).deleteOp ⟨false, []⟩ wPushed).2 = .ok () ∧
    ((s3fs 1000 false).getPath ⟨false, ["sub"]⟩
        ((s3fs 1000 false).deleteOp ⟨false, []⟩ wPushed).1).2
      = .ok (folder0 ++ ["sub"]) ∧
    isDir ((s3fs 1000 false).getPath ⟨false, ["sub"]⟩
        ((s3fs 1000 false).deleteOp ⟨false, []⟩ wPushed).1).1.lfs folder0 = true ∧
    isFile ((s3fs 1000 false).getPath ⟨false, ["sub"]⟩
        ((s3fs 1000 false).deleteOp ⟨false, []⟩ wPushed).1).1.lfs
      (folder0 ++ ["dir.lock"]) = true ∧
    isDir ((s3fs 1000 false).getPath ⟨false, ["sub"]⟩
        ((s3fs 1000 false).deleteOp ⟨false, []⟩ wPushed).1).1.lfs
      (folder0 ++ ["sub"]) = true := by
  refine ⟨by decide, by decide, by decide, by decide, by decide⟩

/-- C5 (counterexample): on a state where the resource directory does
not exist, `get_path` and `delete` with an absolute path both raise
TypeError, yet they do have a filesystem side effect: the lock
acquisition creates the resource directory and the `dir.lock` marker
before the validation runs. -/
theorem c5_counterexample_absolute_path_has_side_effects :
    ((s3fs 1000 false).getPath ⟨true, ["etc", "passwd"]⟩ w5).2
      = .error .typeError ∧
    ((s3fs 1000 false).getPath ⟨true, ["etc", "passwd"]⟩ w5).1.lfs ≠ w5.lfs ∧
    ((s3fs 1000 false).deleteOp ⟨true, ["abs", "path"]⟩ w5).2
      = .error .typeError ∧
    isFile ((s3fs 1000 false).deleteOp ⟨true, ["abs", "path"]⟩ w5).1.lfs
      (folder0 ++ ["dir.lock"]) = true := by
  refine ⟨by decide, by decide, by decide, by decide⟩

/-- C7: fails on the code with the S3 backing store. On a fresh
synchronized resource, `file_set` itself raises FileNotFoundError: the
pull is swallowed, the file is written locally, but the push takes the
in-memory branch and `tar.add` resolves the child names of the resource
directory against `base_dir`, where they do not exist; nothing is ever
uploaded, so a fresh instance could never read the content back. -/
theorem c7_fileset_roundtrip_fails_on_s3 :
    ((s3fs 1000 true).fileSet "model.bin" [1, 2, 3] wFresh).2
      = .error .fileNotFound ∧
    lookupS ((s3fs 1000 true).fileSet "model.bin" [1, 2, 3] wFresh).1.objects
      "predictor_1_1.tar.gz" = none ∧
    isFile ((s3fs 1000 true).fileSet "model.bin" [1, 2, 3] wFresh).1.lfs
      (folder0 ++ ["model.bin"]) = true := by
  refine ⟨by decide, by decide, by decide⟩

/-- C8: half holds, half fails on the code. When the local marker equals
the remote last-modified value, `get` is a no-op: zero downloads, world
unchanged. When the marker is absent, `get` downloads (one download
call), unpacks, and removes the downloaded archive — but then fails
with FileNotFoundError instead of writing the marker, because
`replace("tar.gz", "")` leaves a trailing dot and the marker is
addressed inside the non-existent directory `predictor_1_1.`. -/
theorem c8_staleness_skip_and_marker_write_failure :
    s3Get fname0 base0 wEq = (wEq, .ok ()) ∧
    (s3Get fname0 base0 wStale).2 = .error .fileNotFound ∧
    (s3Get fname0 base0 wStale).1.downloads = 1 ∧
    isFile (s3Get fname0 base0 wStale).1.lfs (folder0 ++ ["data0.txt"]) = true ∧
    existsP (s3Get fname0 base0 wStale).1.lfs
      (base0 ++ ["predictor_1_1.tar.gz"]) = false ∧
    existsP (s3Get fname0 base0 wStale).1.lfs
      (folder0 ++ ["last_modified.txt"]) = false ∧
    pyStripTarGz (fname0 ++ ".tar.gz") = "predictor_1_1." := by
  refine ⟨by decide, by decide, by decide, by decide, by decide, by decide, by decide⟩

/-- C9: the local store `put` compares content hashes (directory hash
for directories, file hash for files) before overwriting and skips the
copy when source and destination agree: whenever a first `put` of an
existing source succeeds, a second `put` with no mutation in between
returns the same stored content and performs zero writes. -/
theorem c9_local_put_second_push_no_write
    (storageRoot : FPath) (name : String) (base : FPath) (l : Fs)
    (h1 : stripPre (base ++ pathOfName name) (storageRoot ++ pathOfName name) = none)
    (h2 : stripPre (storageRoot ++ pathOfName name) (base ++ pathOfName name) = none)
    (h3 : (isDir l (base ++ pathOfName name) = true ∧
           isFile l (storageRoot ++ pathOfName name) = false) ∨
          (isFile l (base ++ pathOfName name) = true ∧
           isDir l (storageRoot ++ pathOfName name) = false)) :
    ∃ l' n, localPut storageRoot name base l = .ok (l', n) ∧
      localPut storageRoot name base l' = .ok (l', 0) :=
  copyOp_idem _ _ _ h1 h2 h3

/-- A local filesystem for the C9 witness: the resource content of
`wNat` plus an empty storage root. -/
def lC9 : Fs := wNat.lfs ++ [(["storage"], FsEntry.dir)]

/-- C9 witness: the theorem applied to the concrete resource. -/
theorem c9_witness :
    (stripPre (base0 ++ pathOfName fname0) (["storage"] ++ pathOfName fname0)
      = none) ∧
    (stripPre (["storage"] ++ pathOfName fname0) (base0 ++ pathOfName fname0)
      = none) ∧
    ((isDir lC9 (base0 ++ pathOfName fname0) = true ∧
      isFile lC9 (["storage"] ++ pathOfName fname0) = false) ∨
     (isFile lC9 (base0 ++ pathOfName fname0) = true ∧
      isDir lC9 (["storage"] ++ pathOfName fname0) = false)) ∧
    (∃ l' n, localPut ["storage"] fname0 base0 lC9 = .ok (l', n) ∧
      localPut ["storage"] fname0 base0 l' = .ok (l', 0)) :=
  ⟨by decide, by decide, by decide,
   c9_local_put_second_push_no_write ["storage"] fname0 base0 lC9
     (by decide) (by decide) (by decide)⟩

/-- C10: `delete` and `get_path` validate only that the input is not
absolute; a relative path containing `..` escapes the resource
directory: `delete` removes an existing file outside it, and `get_path`
creates a directory outside it. -/
theorem c10_dotdot_escapes_resource_dir :
    ((s3fs 1000 false).deleteOp ⟨false, ["..", "victim"]⟩ w10).2 = .ok () ∧
    existsP ((s3fs 1000 false).deleteOp ⟨false, ["..", "victim"]⟩ w10).1.lfs
      (base0 ++ ["victim"]) = false ∧
    stripPre folder0 (base0 ++ ["victim"]) = none ∧
    ((s3fs 1000 false).getPath ⟨false, ["..", "newdir"]⟩ w10).2
      = .ok (folder0 ++ ["..", "newdir"]) ∧
    isDir ((s3fs 1000 false).getPath ⟨false, ["..", "newdir"]⟩ w10).1.lfs
      (base0 ++ ["newdir"]) = true ∧
    stripPre folder0 (base0 ++ ["newdir"]) = none := by
  refine ⟨by decide, by decide, by decide, by decide, by decide, by decide⟩

/-- The filesystem after acquiring the lock on the fresh world. -/
def lockedFresh : Fs := wFresh.lfs ++ [(folder0 ++ ["dir.lock"], FsEntry.file [])]

/-- C6 witness: the theorem applied to a fresh, never-pushed resource. -/
theorem c6_witness :
    (acquireLockE (base0 ++ [fname0]) wFresh.lfs = .ok lockedFresh) ∧
    (lookupS wFresh.lms (fname0 ++ ".tar.gz") = none) ∧
    (lookupS wFresh.lms (fname0 ++ "/" ++ "part.bin" ++ ".tar.gz") = none) ∧
    ((mkS3FS 1000 fname0 base0 true).pull wFresh
      = ({wFresh with lfs := lockedFresh}, .ok ()) ∧
     (mkS3FS 1000 fname0 base0 true).pullPath "part.bin" false wFresh
      = ({wFresh with lfs := lockedFresh}, .ok ())) :=
  ⟨by decide, by decide, by decide,
   c6_pull_swallows_backend_failures 1000 fname0 "part.bin" base0 true false
     wFresh lockedFresh (by decide) (by decide) (by decide)⟩

/-- The filesystem after acquiring the lock on the folder-less world. -/
def l5locked : Fs :=
  rootDirs ++ [(folder0, FsEntry.dir), (folder0 ++ ["dir.lock"], FsEntry.file [])]

/-- C5 witness: the amended theorem applied at a concrete absolute path. -/
theorem c5_amended_witness :
    (acquireLockE (base0 ++ [fname0]) w5.lfs = .ok l5locked) ∧
    ((RP.mk true ["etc", "passwd"]).absolute = true) ∧
    ((mkS3FS 1000 fname0 base0 false).deleteOp ⟨true, ["etc", "passwd"]⟩ w5
      = ({w5 with lfs := l5locked}, .error .typeError) ∧
     (mkS3FS 1000 fname0 base0 false).getPath ⟨true, ["etc", "passwd"]⟩ w5
      = ((if false then (mkS3FS 1000 fname0 base0 false).pullNoLock
            {w5 with lfs := l5locked}
          else {w5 with lfs := l5locked}), .error .typeError)) :=
  ⟨by decide, by decide,
   c5_amended_absolute_rejected_after_lock_and_pull 1000 fname0 base0 false
     ⟨true, ["etc", "passwd"]⟩ w5 l5locked (by decide) (by decide)⟩

/-- C4 witness: the amended theorem applied after a full removal (the
resource directory is absent in `w5`). -/
theorem c4_amended_witness :
    (acquireLockE (base0 ++ [fname0]) w5.lfs = .ok l5locked) ∧
    ((RP.mk false ["sub"]).absolute = false) ∧
    (resolveDots (base0 ++ [fname0] ++ ["sub"]) ≠ []) ∧
    (((mkS3FS 1000 fname0 base0 false).getPath ⟨false, ["sub"]⟩ w5).2
      = .ok (base0 ++ [fname0] ++ ["sub"]) ∧
     isFile ((mkS3FS 1000 fname0 base0 false).getPath ⟨false, ["sub"]⟩ w5).1.lfs
      ((base0 ++ [fname0]) ++ ["dir.lock"]) = true ∧
     existsP ((mkS3FS 1000 fname0 base0 false).getPath ⟨false, ["sub"]⟩ w5).1.lfs
      (resolveDots (base0 ++ [fname0] ++ ["sub"])) = true) :=
  ⟨by decide, by decide, by decide,
   c4_amended_get_path_after_removal_succeeds 1000 fname0 base0
     ⟨false, ["sub"]⟩ w5 l5locked (by decide) (by decide) (by decide)⟩
